import Mathlib

/-!
Shallow embedding of `src/FormattedText.tsx` (BotFramework-WebChat).

The file models, faithfully to the TypeScript source:
  * the produced React elements (`RNode`), enough structure for the
    constructs the verified properties touch;
  * the renderer state (`RState`): the `elements` registry array
    (entries become `none` when consumed, matching `this.elements[index] = null`)
    and the shared mutable `key` counter (`this.key`);
  * the placeholder codec: `ReactRenderer.addElement` (encode) and
    `ReactRenderer.getElements` (decode loop), including the leak-absorption
    inner loop and the trailing-leak branch;
  * the link/image sanitization and the `link`, `image`, `html`, `text`,
    `paragraph` renderer callbacks;
  * `renderPlainText` and the `FormattedText` entry point.

Strings are modelled as `List Char`; JavaScript string operations
(`replace`, `indexOf`, `substr`, `split`) are translated into explicit
list functions next to their uses.
-/

/-- A produced React element, restricted to the shapes the source constructs.
`str` is a raw text child; `span key children` is `<span key=...>...</span>`;
`container cls children` is the keyless `<span className=cls>` wrapper;
`anchor` is `<a key href title target="_blank">`; `image` is
`<img key src title alt onLoad=.../>` (the `Bool` records that the
image-load hook is attached); `para` is `<p key>`; `brk` is `<br />`. -/
inductive RNode : Type where
  | str (s : List Char)
  | brk
  | span (key : Nat) (children : List RNode)
  | container (cls : String) (children : List RNode)
  | anchor (key : Nat) (href : List Char) (title : Option (List Char)) (children : List RNode)
  | image (key : Nat) (src : List Char) (title : Option (List Char)) (alt : List Char)
      (hasLoadHook : Bool)
  | para (key : Nat) (children : List RNode)

/-- The mutable state of one `ReactRenderer` instance: the node registry
`elements : React.ReactElement[]` (a consumed or never-written slot is `none`,
matching JavaScript `null`/`undefined`, both falsy) and the key counter. -/
structure RState : Type where
  elements : List (Option RNode)
  key : Nat

/-- Model of the external `He.unescape` HTML-entity decoder on the basic named
entities (`&amp;` `&lt;` `&gt;` `&quot;` `&#39;`); every other character,
including an ampersand not opening one of these references, passes through
unchanged, as in the library's non-strict mode. -/
def unescape : List Char → List Char
  | [] => []
  | '&' :: 'a' :: 'm' :: 'p' :: ';' :: rest => '&' :: unescape rest
  | '&' :: 'l' :: 't' :: ';' :: rest => '<' :: unescape rest
  | '&' :: 'g' :: 't' :: ';' :: rest => '>' :: unescape rest
  | '&' :: 'q' :: 'u' :: 'o' :: 't' :: ';' :: rest => '"' :: unescape rest
  | '&' :: '#' :: '3' :: '9' :: ';' :: rest => '\'' :: unescape rest
  | c :: rest => c :: unescape rest

/-- Decimal digits of a natural number, most significant first; the model of
JavaScript number-to-string conversion in the template literal of
`addElement`. -/
def digitsOfNat (n : Nat) : List Char :=
  if h : n < 10 then [Nat.digitChar n]
  else digitsOfNat (n / 10) ++ [Nat.digitChar (n % 10)]
termination_by n
decreasing_by
  exact Nat.div_lt_self (by omega) (by omega)

/-- Numeric value of a list of decimal digit characters; the model of
JavaScript `Number(...)` applied to the digit run matched by `/\d+/`. -/
def digitsVal (cs : List Char) : Nat :=
  cs.foldl (fun a c => 10 * a + (c.toNat - 48)) 0

namespace ReactRenderer

/-- The placeholder token for registry index `i`: the string
interpolation `{\x7b${elementId}\x7d}` of `addElement`. -/
def encode (i : Nat) : List Char :=
  '{' :: '{' :: (digitsOfNat i ++ ('}' :: '}' :: []))

/-- `addElement`: append the node to `this.elements` and return its
placeholder token. -/
def addElement (el : RNode) (st : RState) : List Char × RState :=
  (encode st.elements.length, ⟨st.elements ++ [some el], st.key⟩)

/-- Model of the regular-expression match of a single leading token
(the anchored pattern: two opening braces, one or more ASCII digits,
two closing braces, at the very start of the stream); returns the parsed
index and the remainder.  The digit run is maximal; since a closing brace
is not a digit, regex backtracking never changes the match. -/
def matchLeadingToken (cs : List Char) : Option (Nat × List Char) :=
  match cs with
  | '{' :: '{' :: r =>
    let ds := r.takeWhile Char.isDigit
    if ds = [] then none
    else
      match r.dropWhile Char.isDigit with
      | '}' :: '}' :: tail => some (digitsVal ds, tail)
      | _ => none
  | _ => none

/-- Whether the stream begins with the two-brace opening delimiter. -/
def startsWithOpen : List Char → Bool
  | '{' :: '{' :: _ => true
  | _ => false

/-- Model of JavaScript `text.indexOf(openingDelimiter)` for the two-brace
opening delimiter: the position of its first occurrence (`none` for `-1`). -/
def indexOfOpen : List Char → Option Nat
  | [] => none
  | c :: rest =>
    if startsWithOpen (c :: rest) then some 0
    else (indexOfOpen rest).map (· + 1)

/-- Model of the JavaScript assignment `this.elements[index] = null`:
in range it nulls the slot; out of range it extends the array (the created
holes read back as `undefined`, modelled as `none` like `null`). -/
def jsSetNull (l : List (Option RNode)) (i : Nat) : List (Option RNode) :=
  if i < l.length then l.set i none
  else l ++ List.replicate (i + 1 - l.length) none

/-- One call of `text.replace(re, ...)` with the anchored global token
pattern: because the pattern is anchored to the stream start, at most one
leading token is replaced per call.  The callback pushes
`this.elements[index]` (possibly null/undefined) and nulls the slot. -/
def stripToken (cs : List Char) (st : RState) :
    List Char × RState × List (Option RNode) :=
  match matchLeadingToken cs with
  | some (i, rest) =>
    (rest, ⟨jsSetNull st.elements i, st.key⟩, [st.elements.getD i none])
  | none => (cs, st, [])

theorem startsWithOpen_iff (cs : List Char) :
    startsWithOpen cs = true ↔ ∃ r, cs = '{' :: '{' :: r := by
  unfold startsWithOpen
  split
  · rename_i r
    simp
  · rename_i hne
    constructor
    · intro h
      simp at h
    · rintro ⟨r, rfl⟩
      exact absurd rfl (hne r)

theorem indexOfOpen_bound {cs : List Char} {n : Nat}
    (h : indexOfOpen cs = some n) : n + 2 ≤ cs.length := by
  induction cs generalizing n with
  | nil => simp [indexOfOpen] at h
  | cons c rest ih =>
    unfold indexOfOpen at h
    split at h
    · rename_i hs
      rw [startsWithOpen_iff] at hs
      obtain ⟨r, hr⟩ := hs
      simp at h
      subst h
      rw [hr]
      simp
    · match hm : indexOfOpen rest with
      | some m =>
        rw [hm] at h
        simp at h
        have := ih hm
        simp
        omega
      | none => rw [hm] at h; simp at h

/-- The inner `while (next > 0)` loop of `getElements`: consume leaked text
up to the next opening delimiter, wrapping each consumed fragment (entity
unescaped) in a keyed text span.  Returns the remaining stream, the updated
state and the produced leak nodes in order. -/
def consumeLeaks (cs : List Char) (st : RState) :
    List Char × RState × List (Option RNode) :=
  match h : indexOfOpen cs with
  | some n =>
    if hn : 0 < n then
      let node := RNode.span st.key [RNode.str (unescape (cs.take n))]
      let r := consumeLeaks (cs.drop n) ⟨st.elements, st.key + 1⟩
      (r.1, r.2.1, some node :: r.2.2)
    else (cs, st, [])
  | none => (cs, st, [])
termination_by cs.length
decreasing_by
  have := indexOfOpen_bound h
  simp
  omega

theorem consumeLeaks_length_le (cs : List Char) (st : RState) :
    (consumeLeaks cs st).1.length ≤ cs.length := by
  induction cs, st using consumeLeaks.induct with
  | case1 cs st n h hn ih =>
    rw [consumeLeaks]
    rw [h]
    simp only [dif_pos hn]
    have hdrop : (cs.drop n).length ≤ cs.length := by
      simp
    exact le_trans ih hdrop
  | case2 cs st n h hn =>
    rw [consumeLeaks]
    rw [h]
    simp [dif_neg hn]
  | case3 cs st h =>
    rw [consumeLeaks]
    rw [h]

theorem matchLeadingToken_shape {cs : List Char} {i : Nat} {rest : List Char}
    (h : matchLeadingToken cs = some (i, rest)) :
    ∃ ds, ds ≠ [] ∧ (∀ c ∈ ds, c.isDigit = true) ∧
      cs = '{' :: '{' :: (ds ++ ('}' :: '}' :: rest)) := by
  unfold matchLeadingToken at h
  split at h
  · rename_i r
    dsimp only at h
    split at h
    · simp at h
    · rename_i hds
      split at h
      · rename_i tail heq
        simp only [Option.some.injEq, Prod.mk.injEq] at h
        obtain ⟨-, htail⟩ := h
        refine ⟨r.takeWhile Char.isDigit, hds, ?_, ?_⟩
        · intro c hc
          exact List.mem_takeWhile_imp hc
        · have hsplit : r = r.takeWhile Char.isDigit ++ r.dropWhile Char.isDigit :=
            (List.takeWhile_append_dropWhile ..).symm
          rw [heq, htail] at hsplit
          exact congrArg (fun l => '{' :: '{' :: l) hsplit
      · simp at h
  · simp at h

theorem stripToken_length_le (cs : List Char) (st : RState) :
    (stripToken cs st).1.length ≤ cs.length := by
  unfold stripToken
  split
  · rename_i i rest h
    obtain ⟨ds, -, -, hshape⟩ := matchLeadingToken_shape h
    simp [hshape]
    omega
  · simp

/-- The `while (true)` loop of `getElements`.  Per iteration, in source
order: remember the length, strip one leading token (`text.replace` with the
anchored pattern), stop if the stream is empty, consume leaked text up to the
next opening delimiter, and if the iteration consumed nothing treat the whole
remainder as one trailing leak and stop; otherwise iterate.  Produces the
pushed entries in order (consumed registry slots may contribute `none`,
matching pushed `null`/`undefined`) and the final renderer state. -/
def getElementsGo (cs : List Char) (st : RState) :
    List (Option RNode) × RState :=
  let s1 := stripToken cs st
  if s1.1 = [] then (s1.2.2, s1.2.1)
  else
    let s2 := consumeLeaks s1.1 s1.2.1
    if hlen : cs.length = s2.1.length then
      (s1.2.2 ++ (s2.2.2 ++ [some (RNode.span s2.2.1.key [RNode.str (unescape s2.1)])]),
        ⟨s2.2.1.elements, s2.2.1.key + 1⟩)
    else
      let r := getElementsGo s2.1 s2.2.1
      (s1.2.2 ++ (s2.2.2 ++ r.1), r.2)
termination_by cs.length
decreasing_by
  simp only [s2, s1] at *
  have h1 := stripToken_length_le cs st
  have h2 := consumeLeaks_length_le (stripToken cs st).1 (stripToken cs st).2.1
  omega

/-- `getElements`: run the decode loop and filter out the falsy entries
(`elements.filter(el => !!el)`). -/
def getElements (cs : List Char) (st : RState) : List RNode × RState :=
  let r := getElementsGo cs st
  (r.1.filterMap id, r.2)

/-- `unescapeAndSanitizeLink`: unescape the destination; when the `sanitize`
option is set, reject (`null`) unless the lower-cased form starts with
`http:` or `https:`.  The modelled entity decoder is total, so the
`catch` branch of the source is unreachable.  Lower-casing is modelled on
ASCII, which covers every scheme comparison the check performs. -/
def unescapeAndSanitizeLink (sanitize : Bool) (href : List Char) :
    Option (List Char) :=
  let h := unescape href
  if sanitize then
    let prot := h.map Char.toLower
    if "http:".toList.isPrefixOf prot || "https:".toList.isPrefixOf prot then
      some h
    else none
  else some h

/-- The `link` renderer callback.  A rejected (`null`) or empty destination
is falsy, so the callback returns the empty string without touching any
state; otherwise the key is taken, the children are decoded from the
content string, and the anchor is registered. -/
def link (sanitize : Bool) (href : List Char) (title : Option (List Char))
    (text : List Char) (st : RState) : List Char × RState :=
  match unescapeAndSanitizeLink sanitize href with
  | none => ([], st)
  | some h =>
    if h = [] then ([], st)
    else
      let k := st.key
      let r := getElements text ⟨st.elements, k + 1⟩
      addElement (RNode.anchor k h title r.1) r.2

/-- The `image` renderer callback: sanitization as for `link`; an accepted
image node is registered with the image-load hook attached. -/
def image (sanitize : Bool) (href : List Char) (title : Option (List Char))
    (alt : List Char) (st : RState) : List Char × RState :=
  match unescapeAndSanitizeLink sanitize href with
  | none => ([], st)
  | some h =>
    if h = [] then ([], st)
    else addElement (RNode.image st.key h title alt true) ⟨st.elements, st.key + 1⟩

/-- The `html` renderer callback: the raw embedded-markup string is wrapped
in a keyed span verbatim — no `getElements` decoding and no entity
unescaping. -/
def html (content : List Char) (st : RState) : List Char × RState :=
  addElement (RNode.span st.key [RNode.str content]) ⟨st.elements, st.key + 1⟩

/-- The `text` renderer callback: a leaf text run, entity-unescaped, in a
keyed span. -/
def text (content : List Char) (st : RState) : List Char × RState :=
  addElement (RNode.span st.key [RNode.str (unescape content)]) ⟨st.elements, st.key + 1⟩

/-- The `paragraph` renderer callback: a container — the key is taken first,
then the content string is decoded into children, then the paragraph node is
registered. -/
def paragraph (content : List Char) (st : RState) : List Char × RState :=
  let k := st.key
  let r := getElements content ⟨st.elements, k + 1⟩
  addElement (RNode.para k r.1) r.2

/-- Fuel-indexed, structurally recursive form of the leak-consumption loop:
`none` when the fuel runs out.  Used to show the loop finishes within a
number of iterations bounded by the stream length, and to evaluate the
decoder on concrete streams. -/
def consumeLeaksFuel : Nat → List Char → RState →
    Option (List Char × RState × List (Option RNode))
  | 0, _, _ => none
  | fuel + 1, cs, st =>
    match indexOfOpen cs with
    | some n =>
      if 0 < n then
        match consumeLeaksFuel fuel (cs.drop n) ⟨st.elements, st.key + 1⟩ with
        | some r =>
          some (r.1, r.2.1,
            some (RNode.span st.key [RNode.str (unescape (cs.take n))]) :: r.2.2)
        | none => none
      else some (cs, st, [])
    | none => some (cs, st, [])

/-- Fuel-indexed, structurally recursive form of the decode loop.  The
inner leak loop always gets enough fuel for its own stream. -/
def getElementsGoFuel : Nat → List Char → RState →
    Option (List (Option RNode) × RState)
  | 0, _, _ => none
  | fuel + 1, cs, st =>
    let s1 := stripToken cs st
    if s1.1 = [] then some (s1.2.2, s1.2.1)
    else
      match consumeLeaksFuel (s1.1.length + 1) s1.1 s1.2.1 with
      | none => none
      | some s2 =>
        if cs.length = s2.1.length then
          some (s1.2.2 ++ (s2.2.2 ++
              [some (RNode.span s2.2.1.key [RNode.str (unescape s2.1)])]),
            ⟨s2.2.1.elements, s2.2.1.key + 1⟩)
        else
          match getElementsGoFuel fuel s2.1 s2.2.1 with
          | none => none
          | some r => some (s1.2.2 ++ (s2.2.2 ++ r.1), r.2)

end ReactRenderer

/-- Model of JavaScript `text.replace(carriageReturn, empty)` with a plain
string pattern: only the first occurrence of the carriage return is
removed. -/
def removeFirstCR : List Char → List Char
  | [] => []
  | c :: rest => if c = '\r' then rest else c :: removeFirstCR rest

/-- Model of JavaScript `text.split(newline)`: the list of newline-separated
fragments; always non-empty. -/
def splitNL : List Char → List (List Char)
  | [] => [[]]
  | c :: rest =>
    if c = '\n' then [] :: splitNL rest
    else
      match splitNL rest with
      | l :: ls => (c :: l) :: ls
      | [] => [[c]]

/-- `renderPlainText`: remove the (first) carriage return, split on
newlines, and wrap each line as `<span key=i>{line}<br /></span>` inside the
`format-plain` container. -/
def renderPlainText (text : List Char) : RNode :=
  let lines := splitNL (removeFirstCR text)
  RNode.container "format-plain"
    (lines.enum.map (fun p => RNode.span p.1 [RNode.str p.2, RNode.brk]))

/-- The `FormattedText` component.  `render` stands for `renderMarkdown`
(whose markdown engine is external to this file); the guard
`!props.text || props.text === ''` returns the null element for an absent or
empty text, before the format switch. -/
def FormattedText (render : List Char → RNode) (text : Option (List Char))
    (format : String) : Option RNode :=
  match text with
  | none => none
  | some t =>
    if t = [] then none
    else if format = "plain" then some (renderPlainText t)
    else some (render t)

mutual

/-- Erase the React `key` attribute everywhere in a node; the keys come from
the renderer's shared mutable counter and carry no content. -/
def eraseKey : RNode → RNode
  | .str s => .str s
  | .brk => .brk
  | .span _ ch => .span 0 (eraseKeyList ch)
  | .container c ch => .container c (eraseKeyList ch)
  | .anchor _ h t ch => .anchor 0 h t (eraseKeyList ch)
  | .image _ s t a hk => .image 0 s t a hk
  | .para _ ch => .para 0 (eraseKeyList ch)

/-- `eraseKey` mapped over a child list. -/
def eraseKeyList : List RNode → List RNode
  | [] => []
  | n :: ns => eraseKey n :: eraseKeyList ns

end

mutual

/-- Number of line-break nodes in a produced element tree. -/
def countBrk : RNode → Nat
  | .str _ => 0
  | .brk => 1
  | .span _ ch => countBrkList ch
  | .container _ ch => countBrkList ch
  | .anchor _ _ _ ch => countBrkList ch
  | .image _ _ _ _ _ => 0
  | .para _ ch => countBrkList ch

/-- `countBrk` summed over a child list. -/
def countBrkList : List RNode → Nat
  | [] => 0
  | n :: ns => countBrk n + countBrkList ns

end

namespace ReactRenderer

theorem consumeLeaksFuel_eq :
    ∀ (fuel : Nat) (cs : List Char) (st : RState), cs.length < fuel →
      consumeLeaksFuel fuel cs st = some (consumeLeaks cs st) := by
  intro fuel
  induction fuel with
  | zero => intro cs st h; omega
  | succ fuel ih =>
    intro cs st h
    rw [consumeLeaks]
    match hio : indexOfOpen cs with
    | some n =>
      simp only [consumeLeaksFuel, hio]
      by_cases hn : 0 < n
      · have hb := indexOfOpen_bound hio
        have hdrop : (cs.drop n).length < fuel := by
          simp
          omega
        rw [ih (cs.drop n) ⟨st.elements, st.key + 1⟩ hdrop]
        simp [dif_pos hn, if_pos hn]
      · simp [dif_neg hn, if_neg hn]
    | none => simp [consumeLeaksFuel, hio]

theorem getElementsGoFuel_eq :
    ∀ (fuel : Nat) (cs : List Char) (st : RState), cs.length < fuel →
      getElementsGoFuel fuel cs st = some (getElementsGo cs st) := by
  intro fuel
  induction fuel with
  | zero => intro cs st h; omega
  | succ fuel ih =>
    intro cs st h
    rw [getElementsGo]
    simp only [getElementsGoFuel]
    by_cases h1 : (stripToken cs st).1 = []
    · simp [h1]
    · rw [if_neg h1, if_neg h1]
      rw [consumeLeaksFuel_eq ((stripToken cs st).1.length + 1) (stripToken cs st).1
        (stripToken cs st).2.1 (by omega)]
      by_cases hlen : cs.length =
          (consumeLeaks (stripToken cs st).1 (stripToken cs st).2.1).1.length
      · simp [hlen]
      · have hst := stripToken_length_le cs st
        have hcl := consumeLeaks_length_le (stripToken cs st).1 (stripToken cs st).2.1
        dsimp only
        rw [if_neg hlen, dif_neg hlen, ih _ _ (by omega)]

end ReactRenderer

theorem digitsOfNat_ne_nil (n : Nat) : digitsOfNat n ≠ [] := by
  rw [digitsOfNat]
  split
  · simp
  · simp

theorem digitsOfNat_all_digits (n : Nat) :
    ∀ c ∈ digitsOfNat n, c.isDigit = true := by
  induction n using Nat.strong_induction_on with
  | _ n ih =>
    rw [digitsOfNat]
    split
    · rename_i h
      intro c hc
      simp at hc
      subst hc
      interval_cases n <;> decide
    · rename_i h
      intro c hc
      simp at hc
      rcases hc with hc | hc
      · exact ih (n / 10) (Nat.div_lt_self (by omega) (by omega)) c hc
      · subst hc
        have : n % 10 < 10 := Nat.mod_lt _ (by omega)
        interval_cases hm : (n % 10) <;> simp_all <;> decide

theorem digitChar_toNat {d : Nat} (h : d < 10) :
    (Nat.digitChar d).toNat = d + 48 := by
  interval_cases d <;> decide

theorem foldl_digitsOfNat (n : Nat) :
    ∀ a : Nat, (digitsOfNat n).foldl (fun a c => 10 * a + (c.toNat - 48)) a
      = a * 10 ^ (digitsOfNat n).length + n := by
  induction n using Nat.strong_induction_on with
  | _ n ih =>
    intro a
    rw [digitsOfNat]
    split
    · rename_i h
      simp [List.foldl, digitChar_toNat h]
      omega
    · rename_i h
      rw [List.foldl_append]
      have hdiv : n / 10 < n := Nat.div_lt_self (by omega) (by omega)
      rw [ih (n / 10) hdiv a]
      have hmod : n % 10 < 10 := Nat.mod_lt _ (by omega)
      simp [List.foldl, digitChar_toNat hmod]
      ring_nf
      have := Nat.div_add_mod n 10
      set L := (digitsOfNat (n / 10)).length
      omega

theorem digitsVal_digitsOfNat (n : Nat) : digitsVal (digitsOfNat n) = n := by
  unfold digitsVal
  rw [foldl_digitsOfNat n 0]
  simp

theorem takeWhile_all_append {p : Char → Bool} {l : List Char} {x : Char}
    {ys : List Char} (hall : ∀ c ∈ l, p c = true) (hx : p x = false) :
    (l ++ x :: ys).takeWhile p = l ∧ (l ++ x :: ys).dropWhile p = x :: ys := by
  induction l with
  | nil => simp [List.takeWhile, List.dropWhile, hx]
  | cons c cs ih =>
    have hc : p c = true := hall c (by simp)
    have hrest : ∀ c ∈ cs, p c = true := fun d hd => hall d (by simp [hd])
    obtain ⟨h1, h2⟩ := ih hrest
    simp [List.takeWhile, List.dropWhile, hc, h1, h2]

namespace ReactRenderer

theorem matchLeadingToken_encode (i : Nat) (rest : List Char) :
    matchLeadingToken (encode i ++ rest) = some (i, rest) := by
  have hall := digitsOfNat_all_digits i
  have hbr : ('}' : Char).isDigit = false := by decide
  have hsh : encode i ++ rest
      = '{' :: '{' :: (digitsOfNat i ++ '}' :: '}' :: rest) := by
    simp [encode]
  rw [hsh]
  obtain ⟨ht, hd⟩ := @takeWhile_all_append Char.isDigit (digitsOfNat i) '}'
    ('}' :: rest) hall hbr
  unfold matchLeadingToken
  simp only [ht, hd]
  rw [if_neg (digitsOfNat_ne_nil i)]
  simp [digitsVal_digitsOfNat]

theorem getElementsGo_nil (st : RState) : getElementsGo [] st = ([], st) := by
  rw [getElementsGo]
  simp [stripToken, matchLeadingToken]

theorem getElements_nil (st : RState) : getElements [] st = ([], st) := by
  simp [getElements, getElementsGo_nil]

theorem indexOfOpen_zero_of_startsWithOpen {cs : List Char}
    (h : startsWithOpen cs = true) : indexOfOpen cs = some 0 := by
  rw [startsWithOpen_iff] at h
  obtain ⟨r, rfl⟩ := h
  simp [indexOfOpen, startsWithOpen]

theorem consumeLeaks_of_open {cs : List Char} (st : RState)
    (h : startsWithOpen cs = true) : consumeLeaks cs st = (cs, st, []) := by
  rw [consumeLeaks]
  rw [indexOfOpen_zero_of_startsWithOpen h]
  simp

theorem consumeLeaks_of_none {cs : List Char} (st : RState)
    (h : indexOfOpen cs = none) : consumeLeaks cs st = (cs, st, []) := by
  rw [consumeLeaks]
  rw [h]

theorem indexOfOpen_drop {cs : List Char} {n : Nat}
    (h : indexOfOpen cs = some n) : startsWithOpen (cs.drop n) = true := by
  induction cs generalizing n with
  | nil => simp [indexOfOpen] at h
  | cons c rest ih =>
    unfold indexOfOpen at h
    split at h
    · rename_i hs
      simp at h
      subst h
      simpa using hs
    · match hm : indexOfOpen rest with
      | some m =>
        rw [hm] at h
        simp at h
        subst h
        simpa using ih hm
      | none => rw [hm] at h; simp at h

end ReactRenderer

namespace ReactRenderer

theorem matchLeadingToken_length {cs : List Char} {i : Nat} {rest : List Char}
    (h : matchLeadingToken cs = some (i, rest)) : rest.length + 5 ≤ cs.length := by
  obtain ⟨ds, hne, -, hshape⟩ := matchLeadingToken_shape h
  rw [hshape]
  simp
  cases ds with
  | nil => exact absurd rfl hne
  | cons d ds' => simp; omega

/-- When a leak is consumed, one iteration of the inner loop suffices: the
remaining stream starts with the opening delimiter. -/
theorem consumeLeaks_of_pos {cs : List Char} {n : Nat} (st : RState)
    (hio : indexOfOpen cs = some n) (hn : 0 < n) :
    consumeLeaks cs st =
      (cs.drop n, ⟨st.elements, st.key + 1⟩,
        [some (RNode.span st.key [RNode.str (unescape (cs.take n))])]) := by
  rw [consumeLeaks]
  split
  · rename_i n' heq
    rw [hio] at heq
    injection heq with heq'
    subst heq'
    rw [dif_pos hn]
    rw [consumeLeaks_of_open _ (indexOfOpen_drop hio)]
  · rename_i heq
    rw [hio] at heq
    simp at heq

/-- Stepping the decode loop over a leading well-formed token: the
referenced registry entry (possibly `none` if consumed or out of range) is
pushed, its slot is nulled, and decoding continues on the remainder as if
freshly invoked. -/
theorem getElementsGo_token_step {cs : List Char} {i : Nat} {rest : List Char}
    (st : RState) (h : matchLeadingToken cs = some (i, rest)) :
    getElementsGo cs st =
      (st.elements.getD i none ::
        (getElementsGo rest ⟨jsSetNull st.elements i, st.key⟩).1,
       (getElementsGo rest ⟨jsSetNull st.elements i, st.key⟩).2) := by
  have hstrip : stripToken cs st
      = (rest, ⟨jsSetNull st.elements i, st.key⟩, [st.elements.getD i none]) := by
    unfold stripToken
    rw [h]
  have hlength := matchLeadingToken_length h
  rw [getElementsGo]
  simp only [hstrip]
  by_cases hrest : rest = []
  · subst hrest
    simp [getElementsGo_nil]
  · rw [if_neg hrest]
    set st' : RState := ⟨jsSetNull st.elements i, st.key⟩ with hst'
    match hio : indexOfOpen rest with
    | none =>
      rw [consumeLeaks_of_none st' hio]
      have hlen : ¬ cs.length = rest.length := by omega
      rw [dif_neg hlen]
      simp
    | some 0 =>
      rw [consumeLeaks_of_open st' (by simpa using indexOfOpen_drop hio)]
      have hlen : ¬ cs.length = rest.length := by omega
      rw [dif_neg hlen]
      simp
    | some (n + 1) =>
      have hn : 0 < n + 1 := by omega
      have hbound := indexOfOpen_bound hio
      rw [consumeLeaks_of_pos st' hio hn]
      have hdlen : (rest.drop (n + 1)).length = rest.length - (n + 1) := by simp
      have hlenA : ¬ cs.length = (rest.drop (n + 1)).length := by omega
      rw [dif_neg hlenA]
      have htok' : matchLeadingToken rest = none := by
        match hm : matchLeadingToken rest with
        | none => rfl
        | some (j, rr) =>
          obtain ⟨ds2, -, -, hsh2⟩ := matchLeadingToken_shape hm
          have : indexOfOpen rest = some 0 := by
            apply indexOfOpen_zero_of_startsWithOpen
            rw [startsWithOpen_iff]
            exact ⟨_, hsh2⟩
          rw [hio] at this
          simp at this
      have hstrip' : stripToken rest st' = (rest, st', []) := by
        unfold stripToken
        rw [htok']
      conv_rhs => rw [getElementsGo]
      have hlenB : ¬ rest.length = (rest.drop (n + 1)).length := by
        simp
        omega
      simp only [hstrip', consumeLeaks_of_pos st' hio hn, Nat.succ_eq_add_one,
        if_neg hrest, dif_neg hlenB]
      simp

/-- Stepping the decode loop over a leading leak (no leading token, next
opening delimiter strictly ahead): the fragment before the delimiter is
unescaped and pushed as a keyed text span, the key counter advances, and
decoding continues after the fragment. -/
theorem getElementsGo_leak_step {cs : List Char} {n : Nat} (st : RState)
    (htok : matchLeadingToken cs = none) (hio : indexOfOpen cs = some n)
    (hn : 0 < n) :
    getElementsGo cs st =
      (some (RNode.span st.key [RNode.str (unescape (cs.take n))]) ::
        (getElementsGo (cs.drop n) ⟨st.elements, st.key + 1⟩).1,
       (getElementsGo (cs.drop n) ⟨st.elements, st.key + 1⟩).2) := by
  have hbound := indexOfOpen_bound hio
  have hstrip : stripToken cs st = (cs, st, []) := by
    unfold stripToken
    rw [htok]
  have hne : ¬ cs = [] := by
    intro hc
    rw [hc] at hio
    simp [indexOfOpen] at hio
  rw [getElementsGo]
  simp only [hstrip]
  rw [if_neg hne]
  rw [consumeLeaks_of_pos st hio hn]
  have hlen : ¬ cs.length = (cs.drop n).length := by
    simp
    omega
  rw [dif_neg hlen]
  simp

/-- Stepping the decode loop when the iteration makes no progress (no
leading token and no delimiter strictly ahead): the whole remaining
non-empty stream is emitted as one unescaped trailing-leak span and the
loop stops. -/
theorem getElementsGo_trailing {cs : List Char} (st : RState)
    (htok : matchLeadingToken cs = none)
    (hio : indexOfOpen cs = none ∨ indexOfOpen cs = some 0)
    (hne : cs ≠ []) :
    getElementsGo cs st =
      ([some (RNode.span st.key [RNode.str (unescape cs)])],
        ⟨st.elements, st.key + 1⟩) := by
  have hstrip : stripToken cs st = (cs, st, []) := by
    unfold stripToken
    rw [htok]
  rw [getElementsGo]
  simp only [hstrip]
  rw [if_neg hne]
  have hcl : consumeLeaks cs st = (cs, st, []) := by
    rcases hio with hio | hio
    · exact consumeLeaks_of_none st hio
    · exact consumeLeaks_of_open st (by simpa using indexOfOpen_drop hio)
  rw [hcl]
  rw [dif_pos rfl]
  simp

end ReactRenderer

namespace ReactRenderer

/-- Token step at the `getElements` level: a present entry is emitted, a
consumed or nonexistent one is dropped by the final filter. -/
theorem getElements_token_step {cs : List Char} {i : Nat} {rest : List Char}
    (st : RState) (h : matchLeadingToken cs = some (i, rest)) :
    getElements cs st =
      ((st.elements.getD i none).toList ++
        (getElements rest ⟨jsSetNull st.elements i, st.key⟩).1,
       (getElements rest ⟨jsSetNull st.elements i, st.key⟩).2) := by
  unfold getElements
  rw [getElementsGo_token_step st h]
  cases st.elements.getD i none <;> simp

/-- Leak step at the `getElements` level. -/
theorem getElements_leak_step {cs : List Char} {n : Nat} (st : RState)
    (htok : matchLeadingToken cs = none) (hio : indexOfOpen cs = some n)
    (hn : 0 < n) :
    getElements cs st =
      (RNode.span st.key [RNode.str (unescape (cs.take n))] ::
        (getElements (cs.drop n) ⟨st.elements, st.key + 1⟩).1,
       (getElements (cs.drop n) ⟨st.elements, st.key + 1⟩).2) := by
  unfold getElements
  rw [getElementsGo_leak_step st htok hio hn]
  simp

/-- Trailing-leak step at the `getElements` level. -/
theorem getElements_trailing {cs : List Char} (st : RState)
    (htok : matchLeadingToken cs = none)
    (hio : indexOfOpen cs = none ∨ indexOfOpen cs = some 0)
    (hne : cs ≠ []) :
    getElements cs st =
      ([RNode.span st.key [RNode.str (unescape cs)]],
        ⟨st.elements, st.key + 1⟩) := by
  unfold getElements
  rw [getElementsGo_trailing st htok hio hne]
  simp

end ReactRenderer

theorem getD_snoc_length {α : Type} (l : List α) (x d : α) :
    (l ++ [x]).getD l.length d = x := by
  induction l with
  | nil => rfl
  | cons a as ih => simp [ih]

theorem set_snoc_length {α : Type} (l : List α) (x y : α) :
    (l ++ [x]).set l.length y = l ++ [y] := by
  induction l with
  | nil => rfl
  | cons a as ih => simp [ih]

namespace ReactRenderer

theorem jsSetNull_snoc_length (l : List (Option RNode)) (x : Option RNode) :
    jsSetNull (l ++ [x]) l.length = l ++ [none] := by
  unfold jsSetNull
  rw [if_pos (by simp)]
  exact set_snoc_length l x none

/-- C1: registering a node and decoding a stream holding only its token
yields exactly that node; the decode consumes the entry, so decoding the
same raw token again against the resulting state yields nothing; and in
general a token whose index refers to a consumed or nonexistent entry
contributes nothing: decoding `token ++ rest` equals decoding `rest`
(with the slot nulled), for every continuation `rest`. -/
theorem decode_roundtrip_consumes (st : RState) (el : RNode) (i : Nat)
    (rest : List Char) :
    ((getElements (addElement el st).1 (addElement el st).2).1 = [el]
      ∧ (getElements (addElement el st).1
          ((getElements (addElement el st).1 (addElement el st).2).2)).1 = [])
    ∧ (st.elements.getD i none = none →
        getElements (encode i ++ rest) st
          = getElements rest ⟨jsSetNull st.elements i, st.key⟩) := by
  constructor
  · have htok : matchLeadingToken (encode st.elements.length)
        = some (st.elements.length, []) := by
      have := matchLeadingToken_encode st.elements.length []
      simpa using this
    have hfirst := getElements_token_step
      (⟨st.elements ++ [some el], st.key⟩ : RState) htok
    rw [getElements_nil] at hfirst
    simp only [addElement]
    rw [hfirst]
    have hget : (st.elements ++ [some el]).getD st.elements.length none
        = some el := getD_snoc_length ..
    have hset : jsSetNull (st.elements ++ [some el]) st.elements.length
        = st.elements ++ [none] := jsSetNull_snoc_length ..
    constructor
    · rw [hget]
      simp
    · rw [hset]
      have hsecond := getElements_token_step
        (⟨st.elements ++ [none], st.key⟩ : RState) htok
      rw [getElements_nil] at hsecond
      rw [hsecond]
      have hget2 : (st.elements ++ [none]).getD st.elements.length none
          = none := getD_snoc_length ..
      rw [hget2]
      simp
  · intro hnone
    have hstep := getElements_token_step st (matchLeadingToken_encode i rest)
    rw [hstep, hnone]
    simp

/-- Witness for C1 at a concrete state: index `5` is nonexistent in the
empty registry. -/
theorem decode_roundtrip_consumes_witness :
    (([] : List (Option RNode)).getD 5 none = none)
    ∧ getElements (encode 5 ++ []) ⟨[], 0⟩
        = getElements [] ⟨jsSetNull [] 5, 0⟩ :=
  ⟨rfl, (decode_roundtrip_consumes ⟨[], 0⟩ RNode.brk 5 []).2 rfl⟩

end ReactRenderer

namespace ReactRenderer

/-- C2: decoding the stream of token 0, the leaked fragment
`raw & text`, and token 1, against a registry holding nodes at indices 0
and 1, yields exactly the three outputs in order — node 0, a text span
whose content is the entity-unescaped fragment (here unchanged, since the
fragment contains no entity reference), node 1. -/
theorem decode_leak_absorption (n0 n1 : RNode) (k : Nat) :
    (getElements
        ('{' :: '{' :: '0' :: '}' :: '}' ::
          ("raw & text".toList ++ ('{' :: '{' :: '1' :: '}' :: '}' :: [])))
        ⟨[some n0, some n1], k⟩).1
      = [n0, RNode.span k [RNode.str "raw & text".toList], n1]
    ∧ unescape "raw & text".toList = "raw & text".toList := by
  constructor
  · have h1 : matchLeadingToken
        ('{' :: '{' :: '0' :: '}' :: '}' ::
          ("raw & text".toList ++ ('{' :: '{' :: '1' :: '}' :: '}' :: [])))
        = some (0, "raw & text".toList ++ ('{' :: '{' :: '1' :: '}' :: '}' :: [])) := by
      decide
    rw [getElements_token_step _ h1]
    have h2 : matchLeadingToken
        ("raw & text".toList ++ ('{' :: '{' :: '1' :: '}' :: '}' :: [])) = none := by
      decide
    have h3 : indexOfOpen
        ("raw & text".toList ++ ('{' :: '{' :: '1' :: '}' :: '}' :: [])) = some 10 := by
      decide
    rw [getElements_leak_step _ h2 h3 (by omega)]
    have h4 : matchLeadingToken ('{' :: '{' :: '1' :: '}' :: '}' :: ([] : List Char))
        = some (1, []) := by
      decide
    have h5 : ("raw & text".toList ++
        ('{' :: '{' :: '1' :: '}' :: '}' :: [])).drop 10
        = '{' :: '{' :: '1' :: '}' :: '}' :: [] := by
      decide
    rw [h5, getElements_token_step _ h4, getElements_nil]
    have h6 : ("raw & text".toList ++
        ('{' :: '{' :: '1' :: '}' :: '}' :: [])).take 10 = "raw & text".toList := by
      decide
    rw [h6]
    have h7 : unescape "raw & text".toList = "raw & text".toList := by decide
    rw [h7]
    simp [jsSetNull]
  · decide

end ReactRenderer

namespace ReactRenderer

/-- C3: the decode loop terminates on every input: run with fuel bounded by
the stream length plus one, the structurally recursive form of the loop
finishes (never exhausts its fuel) and computes the loop's result — each
iteration either strips a full leading token, consumes at least one leaked
character, or ends the loop. -/
theorem decode_loop_terminates (cs : List Char) (st : RState) :
    getElementsGoFuel (cs.length + 1) cs st = some (getElementsGo cs st) :=
  getElementsGoFuel_eq (cs.length + 1) cs st (by omega)

/-- C4: with the sanitize option enabled, a destination whose unescaped,
lower-cased form starts with neither of the two accepted schemes makes both
the link and the image callback return the empty token and leave the state
untouched — no node is registered, hence no image node carrying the load
hook exists for it. -/
theorem link_image_reject_unsafe_scheme (href : List Char)
    (title : Option (List Char)) (txt alt : List Char) (st : RState)
    (h1 : "http:".toList.isPrefixOf ((unescape href).map Char.toLower) = false)
    (h2 : "https:".toList.isPrefixOf ((unescape href).map Char.toLower) = false) :
    link true href title txt st = ([], st)
    ∧ image true href title alt st = ([], st) := by
  have hs : unescapeAndSanitizeLink true href = none := by
    have hcond : ("http:".toList.isPrefixOf ((unescape href).map Char.toLower)
        || "https:".toList.isPrefixOf ((unescape href).map Char.toLower)) = false := by
      simp only [Bool.or_eq_false_iff]
      exact ⟨h1, h2⟩
    unfold unescapeAndSanitizeLink
    simp only [hcond]
    simp
  constructor
  · unfold link
    rw [hs]
  · unfold image
    rw [hs]

/-- Witness for C4 at the spec's example destination. -/
theorem link_image_reject_unsafe_scheme_witness :
    ("http:".toList.isPrefixOf
        ((unescape "javascript:alert(1)".toList).map Char.toLower) = false
      ∧ "https:".toList.isPrefixOf
        ((unescape "javascript:alert(1)".toList).map Char.toLower) = false)
    ∧ (link true "javascript:alert(1)".toList (some "t".toList) "x".toList
          ⟨[], 0⟩ = ([], ⟨[], 0⟩)
      ∧ image true "javascript:alert(1)".toList (some "t".toList) "x".toList
          ⟨[], 0⟩ = ([], ⟨[], 0⟩)) :=
  ⟨⟨by decide, by decide⟩,
    link_image_reject_unsafe_scheme "javascript:alert(1)".toList
      (some "t".toList) "x".toList "x".toList ⟨[], 0⟩ (by decide) (by decide)⟩

/-- C9: a destination that is, or unescapes to, the empty string is falsy
after sanitization, so the link and image callbacks return the empty token
and register nothing, whatever the sanitize option. -/
theorem link_image_empty_destination (sanitize : Bool) (href : List Char)
    (title : Option (List Char)) (txt alt : List Char) (st : RState)
    (h : unescape href = []) :
    link sanitize href title txt st = ([], st)
    ∧ image sanitize href title alt st = ([], st) := by
  have hs : unescapeAndSanitizeLink sanitize href = none
      ∨ unescapeAndSanitizeLink sanitize href = some [] := by
    unfold unescapeAndSanitizeLink
    rw [h]
    cases sanitize
    · simp
    · simp [List.isPrefixOf]
  constructor
  · unfold link
    rcases hs with hs | hs <;> rw [hs]
    simp
  · unfold image
    rcases hs with hs | hs <;> rw [hs]
    simp

/-- Witness for C9 with the sanitize option disabled. -/
theorem link_image_empty_destination_witness :
    unescape [] = []
    ∧ (link false [] none "x".toList ⟨[], 0⟩ = ([], ⟨[], 0⟩)
      ∧ image false [] none "x".toList ⟨[], 0⟩ = ([], ⟨[], 0⟩)) :=
  ⟨rfl, link_image_empty_destination false [] none "x".toList "x".toList
    ⟨[], 0⟩ rfl⟩

end ReactRenderer

/-- C7: an absent text and an empty text both yield the null element, for
every format value and whatever the markdown path would render. -/
theorem formattedText_empty_input (render : List Char → RNode)
    (format : String) :
    FormattedText render none format = none
    ∧ FormattedText render (some []) format = none := by
  constructor
  · rfl
  · rfl

/-- C5 (divergence witness): on an input with two carriage-return+newline
pairs, the plain renderer removes only the first carriage return — the
string-pattern `replace` call replaces a single occurrence — so the second
line keeps a stray carriage return instead of being normalized. -/
theorem renderPlainText_keeps_second_carriage_return :
    renderPlainText "a\r\nb\r\nc".toList
      = RNode.container "format-plain"
          [RNode.span 0 [RNode.str "a".toList, RNode.brk],
           RNode.span 1 [RNode.str "b\r".toList, RNode.brk],
           RNode.span 2 [RNode.str "c".toList, RNode.brk]] := by
  rfl

theorem removeFirstCR_count_nl (t : List Char) :
    (removeFirstCR t).count '\n' = t.count '\n' := by
  induction t with
  | nil => rfl
  | cons c rest ih =>
    simp only [removeFirstCR]
    by_cases hc : c = '\r'
    · subst hc
      rw [if_pos rfl, List.count_cons]
      simp
    · rw [if_neg hc, List.count_cons, List.count_cons, ih]

theorem splitNL_ne_nil (t : List Char) : splitNL t ≠ [] := by
  induction t with
  | nil => simp [splitNL]
  | cons c rest ih =>
    simp only [splitNL]
    by_cases hc : c = '\n'
    · simp [hc]
    · rw [if_neg hc]
      match hs : splitNL rest with
      | l :: ls => simp
      | [] => exact absurd hs ih

theorem splitNL_length (t : List Char) :
    (splitNL t).length = t.count '\n' + 1 := by
  induction t with
  | nil => rfl
  | cons c rest ih =>
    simp only [splitNL]
    by_cases hc : c = '\n'
    · subst hc
      rw [if_pos rfl, List.count_cons]
      simp [ih]
    · rw [if_neg hc, List.count_cons]
      match hs : splitNL rest with
      | l :: ls =>
        rw [hs] at ih
        simp [hc]
        simp at ih
        omega
      | [] => exact absurd hs (splitNL_ne_nil rest)

theorem countBrkList_spans (l : List (Nat × List Char)) :
    countBrkList (l.map (fun p => RNode.span p.1 [RNode.str p.2, RNode.brk]))
      = l.length := by
  induction l with
  | nil => rfl
  | cons p ps ih =>
    simp only [List.map_cons, countBrkList, ih]
    rw [show countBrk (RNode.span p.1 [RNode.str p.2, RNode.brk]) = 1 from rfl]
    simp
    omega

/-- C6: for a non-empty plain-format input the produced tree holds exactly
one line-break node per newline-delimited line of the input. -/
theorem renderPlainText_linebreak_count (t : List Char) (h : t ≠ []) :
    countBrk (renderPlainText t) = t.count '\n' + 1 := by
  unfold renderPlainText
  rw [show countBrk (RNode.container "format-plain"
      ((splitNL (removeFirstCR t)).enum.map
        (fun p => RNode.span p.1 [RNode.str p.2, RNode.brk])))
    = countBrkList ((splitNL (removeFirstCR t)).enum.map
        (fun p => RNode.span p.1 [RNode.str p.2, RNode.brk])) from rfl]
  rw [countBrkList_spans]
  rw [List.enum_length]
  rw [splitNL_length, removeFirstCR_count_nl]

/-- Witness for C6 on a concrete two-line input. -/
theorem renderPlainText_linebreak_count_witness :
    "ab\nc".toList ≠ []
    ∧ countBrk (renderPlainText "ab\nc".toList) = "ab\nc".toList.count '\n' + 1 :=
  ⟨by decide, renderPlainText_linebreak_count "ab\nc".toList (by decide)⟩

namespace ReactRenderer

/-- C10: the raw-embedded-markup callback wraps its content verbatim in a
single text span — no placeholder decoding and no entity unescaping.  In
particular, on a content string that is itself a placeholder token, `html`
leaves the referenced registry entry untouched and stores the token text,
while the container callback `paragraph` on the same string consumes the
entry and embeds the referenced node; and the leaf `text` callback stores
the unescaped content, which differs from the verbatim content whenever the
content holds an entity reference. -/
theorem html_raw_no_decode_no_unescape :
    (∀ (s : List Char) (st : RState),
        (html s st).2.elements
            = st.elements ++ [some (RNode.span st.key [RNode.str s])]
          ∧ (text s st).2.elements
            = st.elements ++ [some (RNode.span st.key [RNode.str (unescape s)])])
    ∧ ((html ('{' :: '{' :: '0' :: '}' :: '}' :: []) ⟨[some RNode.brk], 5⟩).2.elements
        = [some RNode.brk,
           some (RNode.span 5 [RNode.str ('{' :: '{' :: '0' :: '}' :: '}' :: [])])]
      ∧ (paragraph ('{' :: '{' :: '0' :: '}' :: '}' :: []) ⟨[some RNode.brk], 5⟩).2.elements
        = [none, some (RNode.para 5 [RNode.brk])]
      ∧ unescape "&amp;".toList ≠ "&amp;".toList) := by
  refine ⟨fun s st => ⟨rfl, rfl⟩, rfl, ?_, by decide⟩
  unfold paragraph
  dsimp only
  have htok : matchLeadingToken ('{' :: '{' :: '0' :: '}' :: '}' :: ([] : List Char))
      = some (0, []) := by decide
  rw [getElements_token_step _ htok, getElements_nil]
  simp [jsSetNull, addElement]

end ReactRenderer

namespace ReactRenderer

theorem go_erase_invariant :
    ∀ (N : Nat) (cs : List Char) (e : List (Option RNode)) (k1 k2 : Nat),
      cs.length ≤ N →
      ((getElementsGo cs ⟨e, k1⟩).1.map (Option.map eraseKey)
        = (getElementsGo cs ⟨e, k2⟩).1.map (Option.map eraseKey))
      ∧ (getElementsGo cs ⟨e, k1⟩).2.elements
        = (getElementsGo cs ⟨e, k2⟩).2.elements := by
  intro N
  induction N with
  | zero =>
    intro cs e k1 k2 hlen
    have hnil : cs = [] := List.length_eq_zero.mp (Nat.le_zero.mp hlen)
    subst hnil
    rw [getElementsGo_nil, getElementsGo_nil]
    exact ⟨rfl, rfl⟩
  | succ N ih =>
    intro cs e k1 k2 hlen
    by_cases hcs : cs = []
    · subst hcs
      rw [getElementsGo_nil, getElementsGo_nil]
      exact ⟨rfl, rfl⟩
    · match htok : matchLeadingToken cs with
      | some (i, rest) =>
        rw [getElementsGo_token_step (⟨e, k1⟩ : RState) htok,
          getElementsGo_token_step (⟨e, k2⟩ : RState) htok]
        have hrl := matchLeadingToken_length htok
        dsimp only
        obtain ⟨hmap, hel⟩ := ih rest (jsSetNull e i) k1 k2 (by omega)
        exact ⟨by simp only [List.map_cons]; rw [hmap], hel⟩
      | none =>
        match hio : indexOfOpen cs with
        | some (n + 1) =>
          rw [getElementsGo_leak_step (⟨e, k1⟩ : RState) htok hio (by omega),
            getElementsGo_leak_step (⟨e, k2⟩ : RState) htok hio (by omega)]
          have hbound := indexOfOpen_bound hio
          dsimp only
          obtain ⟨hmap, hel⟩ := ih (cs.drop (n + 1)) e (k1 + 1) (k2 + 1)
            (by simp; omega)
          refine ⟨?_, hel⟩
          simp only [List.map_cons]
          rw [hmap]
          simp [eraseKey, eraseKeyList]
        | some 0 =>
          rw [getElementsGo_trailing (⟨e, k1⟩ : RState) htok (Or.inr hio) hcs,
            getElementsGo_trailing (⟨e, k2⟩ : RState) htok (Or.inr hio) hcs]
          exact ⟨by simp [eraseKey, eraseKeyList], rfl⟩
        | none =>
          rw [getElementsGo_trailing (⟨e, k1⟩ : RState) htok (Or.inl hio) hcs,
            getElementsGo_trailing (⟨e, k2⟩ : RState) htok (Or.inl hio) hcs]
          exact ⟨by simp [eraseKey, eraseKeyList], rfl⟩

theorem filterMap_map_erase {l1 l2 : List (Option RNode)}
    (h : l1.map (Option.map eraseKey) = l2.map (Option.map eraseKey)) :
    (l1.filterMap id).map eraseKey = (l2.filterMap id).map eraseKey := by
  induction l1 generalizing l2 with
  | nil =>
    cases l2 with
    | nil => rfl
    | cons b l2 => simp at h
  | cons a l1 ih =>
    cases l2 with
    | nil => simp at h
    | cons b l2 =>
      simp only [List.map_cons] at h
      injection h with h1 h2
      match a, b, h1 with
      | none, none, _ => simpa using ih h2
      | some x, some y, h1 =>
        simp only [Option.map_some'] at h1
        injection h1 with h1
        simp [ih h2, h1]
      | none, some y, h1 => simp at h1
      | some x, none, h1 => simp at h1

/-- C8 (amended): decoding depends only on the stream and the registry
contents, up to the node-identity `key` attribute drawn from the
renderer's shared counter — for two states with identical registries the
decoded sequences agree after erasing keys, and the registries evolve
identically. -/
theorem decode_pure_up_to_keys (cs : List Char) (st1 st2 : RState)
    (h : st1.elements = st2.elements) :
    (getElements cs st1).1.map eraseKey = (getElements cs st2).1.map eraseKey
    ∧ (getElements cs st1).2.elements = (getElements cs st2).2.elements := by
  obtain ⟨e1, k1⟩ := st1
  obtain ⟨e2, k2⟩ := st2
  simp only at h
  subst h
  obtain ⟨hmap, hel⟩ := go_erase_invariant cs.length cs e1 k1 k2 le_rfl
  exact ⟨filterMap_map_erase hmap, hel⟩

/-- Witness for C8 (amended) at two states sharing an empty registry but
different key counters. -/
theorem decode_pure_up_to_keys_witness :
    (RState.mk [] 0).elements = (RState.mk [] 7).elements
    ∧ ((getElements ['x'] ⟨[], 0⟩).1.map eraseKey
          = (getElements ['x'] ⟨[], 7⟩).1.map eraseKey
        ∧ (getElements ['x'] ⟨[], 0⟩).2.elements
          = (getElements ['x'] ⟨[], 7⟩).2.elements) :=
  ⟨rfl, decode_pure_up_to_keys ['x'] ⟨[], 0⟩ ⟨[], 7⟩ rfl⟩

/-- C8 (counterexample to literal purity): the same stream decoded against
the same registry contents yields different raw node sequences when the
shared key counter differs — the synthesized leak span carries the counter
value, so the output is not a function of the stream and registry alone. -/
theorem decode_key_depends_on_call_position :
    (getElements ['x'] ⟨[], 0⟩).1 ≠ (getElements ['x'] ⟨[], 1⟩).1 := by
  rw [getElements_trailing (⟨[], 0⟩ : RState) (by decide) (Or.inl (by decide))
      (by decide),
    getElements_trailing (⟨[], 1⟩ : RState) (by decide) (Or.inl (by decide))
      (by decide)]
  simp

end ReactRenderer
